import Mathlib

/-!
Verification of the dropbox_backend file-storage service.

Shallow embedding of the storage-accounting and sharing subsystem:
the Mongoose models (src/models/User.js, File.js, Folder.js) and the
route handlers of routes/files.js (upload, download, folder create,
file delete, folder cascade delete, share, visibility toggle).

Machine numbers are modelled as Int (JS numbers in this code path are
integral byte counts), document ids as Nat, the uploads directory as a
list of blob paths, and the per-user storageUsed counter as a function
from user id to Int, mirroring the per-document `$inc` updates.
-/

namespace DropboxBackend

/-- entry of the sharedWith array of a File document (src/models/File.js):
a user reference and a permission string. -/
structure ShareEntry where
  user : Nat
  permission : String
  deriving DecidableEq, Repr

/-- a File document (src/models/File.js): filename fields are irrelevant to
the claims and omitted; id is the Mongo _id, folder is nullable, path is the
blob-store key. -/
structure FileRec where
  id : Nat
  owner : Nat
  folder : Option Nat
  size : Int
  path : String
  isPublic : Bool
  sharedWith : List ShareEntry
  deriving DecidableEq, Repr

/-- a Folder document (src/models/Folder.js). -/
structure FolderRec where
  id : Nat
  owner : Nat
  parent : Option Nat
  name : String
  deriving DecidableEq, Repr

/-- error kinds surfaced by the route handlers: 404 not found / access denied,
400 validation, 500 server error. -/
inductive ApiError where
  | notFound
  | validation
  | serverError
  deriving DecidableEq, Repr

/-- whole-system state. User documents are split into the email table
(for share-target resolution) and the per-user storageUsed counter;
disk is the uploads directory holding blob paths; nextId generates
fresh Mongo ids. -/
structure SysState where
  userEmails : List (Nat × String)
  storageUsed : Nat → Int
  files : List FileRec
  folders : List FolderRec
  disk : List String
  nextId : Nat

/-- the Mongo filter used by the delete/share/visibility routes:
File.findOne with _id equal to fid and owner equal to u. -/
def fileOwnedPred (u fid : Nat) : FileRec → Bool :=
  fun f => f.id == fid && f.owner == u

/-- the Mongo filter used by the folder delete route:
Folder.findOne with _id equal to fid and owner equal to u. -/
def folderOwnedPred (u fid : Nat) : FolderRec → Bool :=
  fun g => g.id == fid && g.owner == u

/-- quota pre-flight check, from the multer fileFilter of routes/files.js
(lines 43-54): reject when storageUsed + fileSize exceeds storageLimit,
otherwise accept. -/
def reserveCheck (storageUsed storageLimit fileSize : Int) : Bool :=
  if storageUsed + fileSize > storageLimit then false else true

/-- success path of POST /upload (routes/files.js lines 93-125): multer has
already written the blob to disk; the handler saves a File record with the
client-supplied folderId (no folder existence or ownership check) and
increments the uploader storageUsed by the file size. -/
def uploadFile (u : Nat) (folderId : Option Nat) (sz : Int) (blobPath : String)
    (s : SysState) : SysState :=
  let f : FileRec :=
    { id := s.nextId, owner := u, folder := folderId, size := sz, path := blobPath,
      isPublic := false, sharedWith := [] }
  { s with
    files := s.files ++ [f]
    storageUsed := fun v => if v = u then s.storageUsed v + sz else s.storageUsed v
    disk := blobPath :: s.disk
    nextId := s.nextId + 1 }

/-- DELETE /file/:fileId (routes/files.js lines 198-227): find the file by id
AND owner; 404 when absent; otherwise unlink the blob if it exists, decrement
the owner storageUsed by the file size, and delete the record. -/
def deleteFile (u : Nat) (fid : Nat) (s : SysState) : Except ApiError SysState :=
  match s.files.find? (fileOwnedPred u fid) with
  | none => .error .notFound
  | some f =>
      .ok { s with
        disk := s.disk.filter (fun p => p ≠ f.path)
        storageUsed := fun v => if v = u then s.storageUsed v - f.size else s.storageUsed v
        files := s.files.eraseP (fileOwnedPred u fid) }

/-- POST /folder (routes/files.js lines 167-195): 400 when the name is falsy
(empty), otherwise save a Folder with the supplied parent. -/
def createFolder (u : Nat) (parentId : Option Nat) (name : String)
    (s : SysState) : Except ApiError SysState :=
  if name = "" then .error .validation
  else
    .ok { s with
      folders := s.folders ++ [{ id := s.nextId, owner := u, parent := parentId, name := name }]
      nextId := s.nextId + 1 }

/-- DELETE /folder/:folderId (routes/files.js lines 230-273): find the folder
by id AND owner; enumerate ALL files whose folder field equals folderId
(File.find has no owner restriction); unlink their blobs; sum their sizes
with reduce; apply the negative delta to the CALLER storageUsed when
positive; deleteMany the file records; delete the folder. -/
def deleteFolder (u : Nat) (fid : Nat) (s : SysState) : Except ApiError SysState :=
  match s.folders.find? (folderOwnedPred u fid) with
  | none => .error .notFound
  | some _ =>
      let inFolder := s.files.filter (fun f => f.folder == some fid)
      let totalSize := inFolder.foldl (fun t f => t + f.size) 0
      .ok { s with
        disk := s.disk.filter (fun p => !(inFolder.any (fun f => f.path == p)))
        storageUsed :=
          if totalSize > 0 then
            fun v => if v = u then s.storageUsed v - totalSize else s.storageUsed v
          else s.storageUsed
        files := s.files.filter (fun f => !(f.folder == some fid))
        folders := s.folders.eraseP (folderOwnedPred u fid) }

/-- the access disjunction of the GET /download/:fileId query
(routes/files.js lines 145-152): owner, OR an entry for the requester in
sharedWith regardless of permission, OR public. -/
def canRead (u : Nat) (f : FileRec) : Bool :=
  f.owner == u || f.sharedWith.any (fun e => e.user == u) || f.isPublic

/-- GET /download/:fileId (routes/files.js lines 139-164): findOne by _id
constrained by the access disjunction; 404 when no match. -/
def downloadFile (u : Nat) (fid : Nat) (s : SysState) : Except ApiError FileRec :=
  match s.files.find? (fun f => f.id == fid && canRead u f) with
  | none => .error .notFound
  | some f => .ok f

/-- Modelled from the spec: no edit-permission check is implemented under src
(the routes only consult read access and ownership, and the File schema merely
declares the read/edit permission enum). Section 4.3 defines canEdit as true
iff the requester owns the file OR appears in sharedWith with permission edit,
with public visibility granting nothing. -/
def canEdit (u : Nat) (f : FileRec) : Bool :=
  f.owner == u || f.sharedWith.any (fun e => e.user == u && e.permission == "edit")

/-- replace the first element satisfying p by y, as a Mongo single-document
update does. -/
def replaceFirst (p : α → Bool) (y : α) : List α → List α
  | [] => []
  | x :: xs => if p x then y :: xs else x :: replaceFirst p y xs

/-- positional update of the share list, as File.updateOne with the positional
operator does (routes/files.js lines 311-319): overwrite the permission of the
FIRST entry whose user matches. -/
def setFirstPermission : List ShareEntry → Nat → String → List ShareEntry
  | [], _, _ => []
  | e :: rest, tid, p =>
      if e.user == tid then { e with permission := p } :: rest
      else e :: setFirstPermission rest tid p

/-- the share-list update of POST /share/file/:fileId (routes/files.js lines
304-328): when the target already appears, overwrite the permission of the
existing (first-matching) entry via the positional $set; otherwise push a new
entry. -/
def grantShared (l : List ShareEntry) (tid : Nat) (p : String) : List ShareEntry :=
  if l.any (fun e => e.user == tid) then setFirstPermission l tid p
  else l ++ [{ user := tid, permission := p }]

/-- User.findOne by email (routes/files.js line 288). -/
def lookupUserByEmail (s : SysState) (email : String) : Option Nat :=
  (s.userEmails.find? (fun pr => pr.2 == email)).map (fun pr => pr.1)

/-- POST /share/file/:fileId (routes/files.js lines 276-345): 400 on missing
email, 404 on unresolvable target, 400 on self-share, 404 when the caller does
not own the file; then either overwrite the existing entry for the target
(positional $set) or append a new entry; the permission defaults to read. -/
def shareFile (u : Nat) (fid : Nat) (email : String) (perm : Option String)
    (s : SysState) : Except ApiError SysState :=
  if email = "" then .error .validation
  else
    match lookupUserByEmail s email with
    | none => .error .notFound
    | some tid =>
        if tid == u then .error .validation
        else
          match s.files.find? (fileOwnedPred u fid) with
          | none => .error .notFound
          | some f =>
              .ok { s with
                files := replaceFirst (fileOwnedPred u fid)
                  { f with sharedWith := grantShared f.sharedWith tid (perm.getD "read") }
                  s.files }

/-- input to File construction, field-presence view of the document passed to
the Mongoose model (src/models/File.js): each required field may be absent. -/
structure FileInput where
  filename : Option String
  originalName : Option String
  mimetype : Option String
  size : Option Int
  path : Option String
  owner : Option Nat
  deriving DecidableEq, Repr

/-- validation of a File document per the schema (src/models/File.js):
every listed field carries required true and nothing else; the size field in
particular has no minimum and no integrality validator, so any number passes
once present. -/
def fileDocValid (i : FileInput) : Bool :=
  i.filename.isSome && i.originalName.isSome && i.mimetype.isSome &&
  i.size.isSome && i.path.isSome && i.owner.isSome

/-- outcome injected into the upload handler: the record save or the
storageUsed increment may throw. -/
inductive UploadOutcome where
  | success
  | saveFailed
  | incFailed
  deriving DecidableEq, Repr

/-- POST /upload with failure injection (routes/files.js lines 93-135): multer
wrote the blob before the handler body runs; on a thrown error the catch block
unlinks the blob when it still exists and returns 500. When file.save threw no
record exists; when the $inc threw the record was already saved; in neither
failure case is storageUsed changed. -/
def uploadFileWithOutcome (u : Nat) (folderId : Option Nat) (sz : Int) (blobPath : String)
    (o : UploadOutcome) (s : SysState) : Except ApiError Unit × SysState :=
  let sBlob := { s with disk := blobPath :: s.disk }
  let f : FileRec :=
    { id := s.nextId, owner := u, folder := folderId, size := sz, path := blobPath,
      isPublic := false, sharedWith := [] }
  let cleanup : List String → List String := fun d =>
    if d.contains blobPath then d.filter (fun p => p ≠ blobPath) else d
  match o with
  | .success => (.ok (), uploadFile u folderId sz blobPath s)
  | .saveFailed => (.error .serverError, { sBlob with disk := cleanup sBlob.disk })
  | .incFailed =>
      (.error .serverError,
       { sBlob with
         files := sBlob.files ++ [f]
         nextId := s.nextId + 1
         disk := cleanup sBlob.disk })

/-- observable step of the folder cascade delete, used to state ordering
properties of DELETE /folder/:folderId. -/
inductive CascadeEvent where
  | enumerateFiles (fileIds : List Nat)
  | blobDelete (blobPath : String)
  | ledgerDelta (userId : Nat) (delta : Int)
  | catalogDeleteFiles (folderId : Nat)
  | folderDelete (folderId : Nat)
  deriving DecidableEq, Repr

/-- event trace of DELETE /folder/:folderId in SOURCE order (routes/files.js
lines 230-273): enumerate, unlink each existing blob, apply the quota $inc
when the total is positive, deleteMany the file records, delete the folder. -/
def deleteFolderTrace (u : Nat) (fid : Nat) (s : SysState) : Option (List CascadeEvent) :=
  match s.folders.find? (folderOwnedPred u fid) with
  | none => none
  | some _ =>
      let inFolder := s.files.filter (fun f => f.folder == some fid)
      let blobEvents := (inFolder.filter (fun f => f.path != "" && s.disk.contains f.path)).map
        (fun f => CascadeEvent.blobDelete f.path)
      let totalSize := inFolder.foldl (fun t f => t + f.size) 0
      some ([CascadeEvent.enumerateFiles (inFolder.map (fun f => f.id))] ++ blobEvents ++
        (if totalSize > 0 then [CascadeEvent.ledgerDelta u (-totalSize)] else []) ++
        [CascadeEvent.catalogDeleteFiles fid, CascadeEvent.folderDelete fid])

/-- the cascade order as section 4.4 of the spec words it: enumerate, delete
blobs, batch-delete the File records, delete the Folder record, and ONLY THEN
apply the accumulated size as a single negative ledger delta. Stated for
comparison against deleteFolderTrace. -/
def deleteFolderTraceSpec (u : Nat) (fid : Nat) (s : SysState) : Option (List CascadeEvent) :=
  match s.folders.find? (folderOwnedPred u fid) with
  | none => none
  | some _ =>
      let inFolder := s.files.filter (fun f => f.folder == some fid)
      let blobEvents := (inFolder.filter (fun f => f.path != "" && s.disk.contains f.path)).map
        (fun f => CascadeEvent.blobDelete f.path)
      let totalSize := inFolder.foldl (fun t f => t + f.size) 0
      some ([CascadeEvent.enumerateFiles (inFolder.map (fun f => f.id))] ++ blobEvents ++
        [CascadeEvent.catalogDeleteFiles fid, CascadeEvent.folderDelete fid,
         CascadeEvent.ledgerDelta u (-totalSize)])

/-- a serial route call against the catalog, for stating sequence properties.
Upload sizes are Nat because multer reports actual bytes written. -/
inductive Op where
  | upload (u : Nat) (folderId : Option Nat) (sz : Nat) (blobPath : String)
  | delFile (u : Nat) (fileId : Nat)
  | mkFolder (u : Nat) (parentId : Option Nat) (name : String)
  | delFolder (u : Nat) (folderId : Nat)
  deriving Repr

/-- a route call that returns an HTTP error leaves the state unchanged. -/
def applyExcept (s : SysState) : Except ApiError SysState → SysState
  | .ok s2 => s2
  | .error _ => s

def runOp (s : SysState) : Op → SysState
  | .upload u folderId sz blobPath => uploadFile u folderId (sz : Int) blobPath s
  | .delFile u fid => applyExcept s (deleteFile u fid s)
  | .mkFolder u parentId name => applyExcept s (createFolder u parentId name s)
  | .delFolder u fid => applyExcept s (deleteFolder u fid s)

def runOps (s : SysState) (ops : List Op) : SysState := ops.foldl runOp s

/-- sum of the sizes of the live files owned by u. -/
def ownedSum (u : Nat) (files : List FileRec) : Int :=
  ((files.filter (fun f => f.owner == u)).map (fun f => f.size)).sum

/-- fresh deployment: given users, no files, no folders, all counters zero. -/
def initState (emails : List (Nat × String)) : SysState :=
  { userEmails := emails, storageUsed := fun _ => 0, files := [], folders := [],
    disk := [], nextId := 0 }

/-- restriction on one operation: a folder delete may only target a folder
whose files are all owned by the caller. -/
def opOk (s : SysState) : Op → Bool
  | .delFolder u fid => s.files.all (fun f => !(f.folder == some fid) || f.owner == u)
  | _ => true

/-- restriction on a sequence, checked against the evolving state. -/
def seqOk (s : SysState) : List Op → Bool
  | [] => true
  | op :: rest => opOk s op && seqOk (runOp s op) rest

/-- number of entries for a given target user in a share list. -/
def shareCount (tid : Nat) (l : List ShareEntry) : Nat :=
  (l.filter (fun e => e.user == tid)).length

/-- concrete deployment for the cascade-order statements: user 0 owns folder 1
containing the 100-byte file 2 whose blob p is on disk. -/
def cascadeState : SysState :=
  { userEmails := [(0, "a")], storageUsed := fun _ => 0,
    files := [{ id := 2, owner := 0, folder := some 1, size := 100, path := "p",
                isPublic := false, sharedWith := [] }],
    folders := [{ id := 1, owner := 0, parent := none, name := "X" }],
    disk := ["p"], nextId := 3 }

/-- concrete file for the access statements: file 5 belongs to user 1 and is
shared read-only with user 0. -/
def sharedFileRec : FileRec :=
  { id := 5, owner := 1, folder := none, size := 10, path := "q",
    isPublic := false, sharedWith := [{ user := 0, permission := "read" }] }

/-- concrete public file owned by user 1 with no shares. -/
def pubFileRec : FileRec :=
  { id := 7, owner := 1, folder := none, size := 10, path := "r",
    isPublic := true, sharedWith := [] }

/-- concrete deployment for the access statements, holding sharedFileRec. -/
def sharedFileState : SysState :=
  { userEmails := [(0, "a"), (1, "b")], storageUsed := fun _ => 0,
    files := [sharedFileRec],
    folders := [], disk := ["q"], nextId := 6 }

/-- concrete deployment exhibiting cross-owner cascade: folder 1 belongs to
user 0 but the 100-byte file 2 inside it belongs to user 1. -/
def crossState : SysState :=
  { userEmails := [(0, "a"), (1, "b")], storageUsed := fun _ => 0,
    files := [{ id := 2, owner := 1, folder := some 1, size := 100, path := "p",
                isPublic := false, sharedWith := [] }],
    folders := [{ id := 1, owner := 0, parent := none, name := "X" }],
    disk := ["p"], nextId := 3 }

/-- concrete deployment for the sharing statements: user 0 owns the unshared
file 5; user 1 is a share target reachable at email b. -/
def shareState : SysState :=
  { userEmails := [(0, "a"), (1, "b")], storageUsed := fun _ => 0,
    files := [{ id := 5, owner := 0, folder := none, size := 10, path := "q",
                isPublic := false, sharedWith := [] }],
    folders := [], disk := ["q"], nextId := 6 }

/-! Auxiliary lemmas shared by the claim theorems. -/

theorem ownedSum_nil (u : Nat) : ownedSum u [] = 0 := rfl

theorem ownedSum_cons (u : Nat) (f : FileRec) (l : List FileRec) :
    ownedSum u (f :: l) = (if f.owner == u then f.size else 0) + ownedSum u l := by
  by_cases h : f.owner == u
  · simp [ownedSum, List.filter_cons, h]
  · simp [ownedSum, List.filter_cons, h]

theorem ownedSum_append (u : Nat) (l₁ l₂ : List FileRec) :
    ownedSum u (l₁ ++ l₂) = ownedSum u l₁ + ownedSum u l₂ := by
  induction l₁ with
  | nil => simp [ownedSum_nil, ownedSum]
  | cons x xs ih => rw [List.cons_append, ownedSum_cons, ownedSum_cons, ih]; ring

/-- erasing the first match of p changes the per-owner sum by the size of the
found element, attributed to its owner. -/
theorem ownedSum_eraseP (p : FileRec → Bool) :
    ∀ (l : List FileRec) (f : FileRec), l.find? p = some f →
      ∀ v, ownedSum v (l.eraseP p) =
        ownedSum v l - (if f.owner == v then f.size else 0) := by
  intro l
  induction l with
  | nil => intro f h v; simp at h
  | cons x xs ih =>
      intro f h v
      by_cases hx : p x
      · rw [List.find?_cons_of_pos _ hx] at h
        cases h
        rw [List.eraseP_cons_of_pos hx, ownedSum_cons]
        ring
      · rw [List.find?_cons_of_neg _ hx] at h
        rw [List.eraseP_cons_of_neg hx, ownedSum_cons, ownedSum_cons, ih f h v]
        ring

/-- the reduce of the folder-delete route equals the sum of the sizes. -/
theorem foldl_add_sizes (l : List FileRec) :
    ∀ a : Int, l.foldl (fun t f => t + f.size) a = a + (l.map (fun f => f.size)).sum := by
  induction l with
  | nil => intro a; simp
  | cons x xs ih =>
      intro a
      rw [List.foldl_cons, ih (a + x.size), List.map_cons, List.sum_cons]
      ring

/-- the per-owner sum splits along any Boolean partition of the file list. -/
theorem ownedSum_filter_split (v : Nat) (q : FileRec → Bool) (l : List FileRec) :
    ownedSum v l = ownedSum v (l.filter q) + ownedSum v (l.filter (fun f => !(q f))) := by
  induction l with
  | nil => simp [ownedSum_nil]
  | cons x xs ih =>
      by_cases hq : q x
      · rw [List.filter_cons_of_pos hq, List.filter_cons_of_neg (by simp [hq]),
          ownedSum_cons, ownedSum_cons, ih]
        ring
      · rw [List.filter_cons_of_neg hq, List.filter_cons_of_pos (by simp [hq]),
          ownedSum_cons, ownedSum_cons, ih]
        ring

/-- on a list of files all owned by u, the per-owner sum for u is the plain
size sum and for anyone else it is zero. -/
theorem ownedSum_of_all_owner (u : Nat) (l : List FileRec) (h : ∀ f ∈ l, f.owner = u) :
    ownedSum u l = (l.map (fun f => f.size)).sum ∧
    ∀ v, v ≠ u → ownedSum v l = 0 := by
  induction l with
  | nil => exact ⟨rfl, fun v _ => rfl⟩
  | cons x xs ih =>
      have hx : x.owner = u := h x (List.mem_cons_self x xs)
      have ihs := ih (fun f hf => h f (List.mem_cons_of_mem x hf))
      constructor
      · rw [ownedSum_cons, ihs.1, List.map_cons, List.sum_cons, hx]
        simp
      · intro v hv
        rw [ownedSum_cons, ihs.2 v hv, hx]
        have : (u == v) = false := by simp [Ne.symm hv]
        rw [this]
        simp

/-- find? returns the designated element when it is the only satisfier. -/
theorem find?_unique {α : Type} (p : α → Bool) (l : List α) (a : α)
    (hmem : a ∈ l) (hp : p a = true)
    (huniq : ∀ b ∈ l, p b = true → b = a) :
    l.find? p = some a := by
  induction l with
  | nil => simp at hmem
  | cons x xs ih =>
      by_cases hx : p x
      · rw [List.find?_cons_of_pos xs hx, huniq x (List.mem_cons_self x xs) hx]
      · rw [List.find?_cons_of_neg xs hx]
        have hmem2 : a ∈ xs := by
          rcases List.mem_cons.mp hmem with h | h
          · exact absurd (h ▸ hp) hx
          · exact h
        exact ih hmem2 (fun b hb hpb => huniq b (List.mem_cons_of_mem x hb) hpb)

/-- after replacing the found element by y (with p y still true), find? yields y. -/
theorem replaceFirst_find? {α : Type} (p : α → Bool) (y : α) (l : List α) (f : α)
    (hfind : l.find? p = some f) (hy : p y = true) :
    (replaceFirst p y l).find? p = some y := by
  induction l with
  | nil => simp at hfind
  | cons x xs ih =>
      by_cases hx : p x
      · rw [replaceFirst, if_pos hx]
        exact List.find?_cons_of_pos xs hy
      · rw [List.find?_cons_of_neg xs hx] at hfind
        rw [replaceFirst, if_neg hx, List.find?_cons_of_neg _ hx]
        exact ih hfind

theorem shareCount_nil (tid : Nat) : shareCount tid [] = 0 := rfl

theorem shareCount_append (tid : Nat) (l₁ l₂ : List ShareEntry) :
    shareCount tid (l₁ ++ l₂) = shareCount tid l₁ + shareCount tid l₂ := by
  simp [shareCount, List.filter_append]

/-- the positional permission overwrite never changes the entry count. -/
theorem shareCount_setFirstPermission (tid : Nat) (p : String) (l : List ShareEntry) :
    shareCount tid (setFirstPermission l tid p) = shareCount tid l := by
  induction l with
  | nil => rfl
  | cons e rest ih =>
      by_cases he : e.user == tid
      · rw [setFirstPermission, if_pos he]
        simp [shareCount, List.filter_cons, he]
      · rw [setFirstPermission, if_neg he]
        simp only [shareCount, List.filter_cons] at ih ⊢
        rw [if_neg (by simp [he]), if_neg (by simp [he])]
        exact ih

/-- an absent target means a zero entry count. -/
theorem shareCount_eq_zero_of_not_any (tid : Nat) (l : List ShareEntry)
    (h : l.any (fun e => e.user == tid) = false) :
    shareCount tid l = 0 := by
  simp only [shareCount, List.length_eq_zero]
  apply List.filter_eq_nil_iff.mpr
  intro e he
  intro hc
  rw [(List.any_eq_true).mpr ⟨e, he, hc⟩] at h
  cases h

/-- a present target means a positive entry count. -/
theorem shareCount_pos_of_any (tid : Nat) (l : List ShareEntry)
    (h : l.any (fun e => e.user == tid) = true) :
    0 < shareCount tid l := by
  rcases List.any_eq_true.mp h with ⟨e, he, hc⟩
  have : e ∈ l.filter (fun e => e.user == tid) := List.mem_filter.mpr ⟨he, hc⟩
  exact List.length_pos.mpr (fun hnil => by rw [hnil] at this; cases this)

/-- granting to a target present at most once leaves exactly one entry. -/
theorem shareCount_grantShared (tid : Nat) (p : String) (l : List ShareEntry)
    (h : shareCount tid l ≤ 1) :
    shareCount tid (grantShared l tid p) = 1 := by
  by_cases hany : l.any (fun e => e.user == tid) = true
  · rw [grantShared, if_pos hany, shareCount_setFirstPermission]
    exact Nat.le_antisymm h (shareCount_pos_of_any tid l hany)
  · rw [grantShared, if_neg hany, shareCount_append,
      shareCount_eq_zero_of_not_any tid l (Bool.eq_false_iff.mpr hany)]
    simp [shareCount, List.filter_cons]

/-- when the target has exactly one entry, the positional overwrite gives it
permission p. -/
theorem setFirstPermission_perm (tid : Nat) (p : String) (l : List ShareEntry)
    (h : shareCount tid l = 1) :
    ∀ e ∈ setFirstPermission l tid p, e.user = tid → e.permission = p := by
  induction l with
  | nil => intro e he; cases he
  | cons x xs ih =>
      by_cases hx : x.user == tid
      · rw [setFirstPermission, if_pos hx]
        intro e he ht
        rcases List.mem_cons.mp he with h1 | h1
        · rw [h1]
        · exfalso
          have hzero : shareCount tid xs = 0 := by
            have h2 : shareCount tid (x :: xs) = 1 := h
            rw [shareCount, List.filter_cons, if_pos hx, List.length_cons] at h2
            rw [shareCount]
            omega
          have : e ∈ xs.filter (fun e => e.user == tid) :=
            List.mem_filter.mpr ⟨h1, by simp [ht]⟩
          rw [shareCount, List.length_eq_zero] at hzero
          rw [hzero] at this
          cases this
      · rw [setFirstPermission, if_neg hx]
        intro e he ht
        rcases List.mem_cons.mp he with h1 | h1
        · exact absurd (by simp [h1 ▸ ht]) hx
        · have hxs : shareCount tid xs = 1 := by
            simp only [shareCount, List.filter_cons, if_neg hx] at h
            exact h
          exact ih hxs e h1 ht

/-- after a grant, every entry for the target carries the granted permission. -/
theorem grantShared_perm (tid : Nat) (p : String) (l : List ShareEntry)
    (h : shareCount tid l ≤ 1) :
    ∀ e ∈ grantShared l tid p, e.user = tid → e.permission = p := by
  by_cases hany : l.any (fun e => e.user == tid) = true
  · rw [grantShared, if_pos hany]
    exact setFirstPermission_perm tid p l
      (Nat.le_antisymm h (shareCount_pos_of_any tid l hany))
  · rw [grantShared, if_neg hany]
    intro e he ht
    rcases List.mem_append.mp he with h1 | h1
    · exfalso
      have hzero := shareCount_eq_zero_of_not_any tid l (Bool.eq_false_iff.mpr hany)
      have : e ∈ l.filter (fun e => e.user == tid) :=
        List.mem_filter.mpr ⟨h1, by simp [ht]⟩
      rw [shareCount, List.length_eq_zero] at hzero
      rw [hzero] at this
      cases this
    · rcases List.mem_singleton.mp h1 with h2
      rw [h2]

/-! Claim theorems. -/

/-- C2: the quota pre-flight check denies exactly when storageUsed plus the
requested byte count exceeds storageLimit, and approves at exact equality. -/
theorem C2_reserve_boundary (used limit req : Int) :
    (reserveCheck used limit req = false ↔ used + req > limit) ∧
    (used + req = limit → reserveCheck used limit req = true) := by
  refine ⟨⟨fun h => ?_, fun h => ?_⟩, fun h => ?_⟩
  · by_cases hgt : used + req > limit
    · exact hgt
    · rw [reserveCheck, if_neg hgt] at h
      cases h
  · rw [reserveCheck, if_pos h]
  · have hgt : ¬ used + req > limit := by omega
    rw [reserveCheck, if_neg hgt]

/-- C2 witness: with 3 bytes used out of 10, requesting 7 hits the limit
exactly and is approved. -/
theorem C2_reserve_boundary_witness :
    (3 : Int) + 7 = 10 ∧ reserveCheck 3 10 7 = true :=
  ⟨by decide, (C2_reserve_boundary 3 10 7).2 (by decide)⟩

/-- C7 fails as stated: minus five is not a non-negative integer, yet a File
document carrying size minus five passes the schema validation of
src/models/File.js, so createFile does not fail and the record is created. -/
theorem C7_counterexample :
    (-5 : Int) < 0 ∧
    fileDocValid { filename := some "f", originalName := some "o", mimetype := some "m",
                   size := some (-5), path := some "p", owner := some 0 } = true := by
  exact ⟨by decide, by decide⟩

/-- C7 amended: the schema only marks size as required, so validation rejects
exactly a missing size and is insensitive to the numeric value supplied; a
negative size validates the same as zero does. -/
theorem C7_size_validation_amended (i : FileInput) (sz : Int) :
    fileDocValid { i with size := some sz } = fileDocValid { i with size := some 0 } ∧
    fileDocValid { i with size := none } = false := by
  constructor
  · rfl
  · simp [fileDocValid]

/-- C10: whenever the upload handler fails after multer wrote the blob, the
catch block unlinks it, so the blob path is absent from the resulting uploads
directory. -/
theorem C10_failed_upload_blob_cleanup (u : Nat) (folderId : Option Nat) (sz : Int)
    (blobPath : String) (o : UploadOutcome) (s : SysState) (ho : o ≠ .success) :
    blobPath ∉ (uploadFileWithOutcome u folderId sz blobPath o s).2.disk := by
  have hc : (blobPath :: s.disk).contains blobPath = true := by
    rw [List.contains_cons]
    simp
  cases o with
  | success => exact absurd rfl ho
  | saveFailed =>
      intro hmem
      simp only [uploadFileWithOutcome, hc, if_pos] at hmem
      rcases List.mem_filter.mp hmem with ⟨_, hne⟩
      simp at hne
  | incFailed =>
      intro hmem
      simp only [uploadFileWithOutcome, hc, if_pos] at hmem
      rcases List.mem_filter.mp hmem with ⟨_, hne⟩
      simp at hne

/-- C10 witness: a failing record save on a fresh deployment leaves no blob q
on disk. -/
theorem C10_failed_upload_blob_cleanup_witness :
    UploadOutcome.saveFailed ≠ UploadOutcome.success ∧
    "q" ∉ (uploadFileWithOutcome 0 none 5 "q" .saveFailed (initState [])).2.disk :=
  ⟨by decide,
   C10_failed_upload_blob_cleanup 0 none 5 "q" .saveFailed (initState []) (by decide)⟩

/-- C1 fails as stated: user 0 creates a folder, user 1 uploads a 100-byte
file into it (the upload route accepts any folderId), and user 0 deletes the
folder; afterwards user 1 carries storageUsed 100 with no live files, and
user 0 carries storageUsed minus 100. -/
theorem C1_counterexample :
    (runOps (initState [(0, "a"), (1, "b")])
        [.mkFolder 0 none "X", .upload 1 (some 0) 100 "p", .delFolder 0 0]).storageUsed 1
      = 100 ∧
    ownedSum 1 (runOps (initState [(0, "a"), (1, "b")])
        [.mkFolder 0 none "X", .upload 1 (some 0) 100 "p", .delFolder 0 0]).files = 0 ∧
    (runOps (initState [(0, "a"), (1, "b")])
        [.mkFolder 0 none "X", .upload 1 (some 0) 100 "p", .delFolder 0 0]).storageUsed 0
      = -100 := by
  refine ⟨by decide, by decide, by decide⟩

/-- C3 fails as stated: on a folder holding one 100-byte file the source
trace applies the ledger delta immediately after the blob unlink and BEFORE
the batch File deletion and the Folder deletion, not after them as the claim
orders the steps. -/
theorem C3_counterexample :
    deleteFolderTrace 0 1 cascadeState =
      some [.enumerateFiles [2], .blobDelete "p", .ledgerDelta 0 (-100),
            .catalogDeleteFiles 1, .folderDelete 1] ∧
    deleteFolderTrace 0 1 cascadeState ≠ deleteFolderTraceSpec 0 1 cascadeState := by
  exact ⟨by decide, by decide⟩

/-- C5: for a file on record (ids unique), the download route succeeds exactly
when the requester owns it, it is public, or the requester appears in
sharedWith with any permission; otherwise it fails with the 404 not-found
response. -/
theorem C5_read_access (s : SysState) (u : Nat) (f : FileRec)
    (hmem : f ∈ s.files) (huniq : ∀ g ∈ s.files, g.id = f.id → g = f) :
    (downloadFile u f.id s = .ok f ↔
      (f.owner = u ∨ f.isPublic = true ∨ ∃ e ∈ f.sharedWith, e.user = u)) ∧
    (¬ (f.owner = u ∨ f.isPublic = true ∨ ∃ e ∈ f.sharedWith, e.user = u) →
      downloadFile u f.id s = .error .notFound) := by
  have hread : (canRead u f = true) ↔
      (f.owner = u ∨ f.isPublic = true ∨ ∃ e ∈ f.sharedWith, e.user = u) := by
    simp only [canRead, Bool.or_eq_true, List.any_eq_true, beq_iff_eq]
    aesop
  have huniqb : ∀ b ∈ s.files, (b.id == f.id && canRead u b) = true → b = f := by
    intro b hb hpb
    rcases (Bool.and_eq_true _ _).mp hpb with ⟨h1, _⟩
    exact huniq b hb (beq_iff_eq.mp h1)
  have hok : canRead u f = true → downloadFile u f.id s = .ok f := by
    intro hcr
    have hp : (f.id == f.id && canRead u f) = true := by simp [hcr]
    have hfind := find?_unique (fun g => g.id == f.id && canRead u g) s.files f hmem hp huniqb
    unfold downloadFile
    rw [hfind]
  have herr : canRead u f = false → downloadFile u f.id s = .error .notFound := by
    intro hcr
    have hnone : s.files.find? (fun g => g.id == f.id && canRead u g) = none := by
      apply List.find?_eq_none.mpr
      intro g hg hpg
      rcases (Bool.and_eq_true _ _).mp hpg with ⟨h1, h2⟩
      have hgf : g = f := huniq g hg (beq_iff_eq.mp h1)
      rw [hgf, hcr] at h2
      cases h2
    unfold downloadFile
    rw [hnone]
  constructor
  · constructor
    · intro hdl
      by_cases hcr : canRead u f = true
      · exact hread.mp hcr
      · rw [herr (Bool.eq_false_iff.mpr hcr)] at hdl
        cases hdl
    · exact fun hprop => hok (hread.mpr hprop)
  · intro hprop
    exact herr (Bool.eq_false_iff.mpr (fun hcr => hprop (hread.mp hcr)))

/-- C5 witness: user 0 downloads file 5, accessible only through its read
share, and receives the record. -/
theorem C5_read_access_witness :
    downloadFile 0 5 sharedFileState = .ok sharedFileRec :=
  (C5_read_access sharedFileState 0 sharedFileRec (by decide) (by decide)).1.mpr
    (Or.inr (Or.inr ⟨{ user := 0, permission := "read" }, by decide, rfl⟩))

/-- C6: edit access holds iff ownership or an edit-permission share; a
read-permission share never confers it and public visibility never confers
it. -/
theorem C6_edit_access (u : Nat) (f : FileRec) :
    (canEdit u f = true ↔
      (f.owner = u ∨ ∃ e ∈ f.sharedWith, e.user = u ∧ e.permission = "edit")) ∧
    (f.owner ≠ u → (∀ e ∈ f.sharedWith, e.user = u → e.permission = "read") →
      canEdit u f = false) ∧
    (f.owner ≠ u → f.sharedWith = [] → canEdit u f = false) := by
  have h1 : (canEdit u f = true) ↔
      (f.owner = u ∨ ∃ e ∈ f.sharedWith, e.user = u ∧ e.permission = "edit") := by
    simp only [canEdit, Bool.or_eq_true, List.any_eq_true, Bool.and_eq_true, beq_iff_eq]
  refine ⟨h1, fun hown hperm => ?_, fun hown hnil => ?_⟩
  · apply Bool.eq_false_iff.mpr
    intro hc
    rcases h1.mp hc with h | ⟨e, he, hu, hp⟩
    · exact hown h
    · rw [hperm e he hu] at hp
      exact absurd hp (by decide)
  · apply Bool.eq_false_iff.mpr
    intro hc
    rcases h1.mp hc with h | ⟨e, he, _, _⟩
    · exact hown h
    · rw [hnil] at he
      cases he

/-- C6 witness: for the read-shared file 5, requester 0 cannot edit; for the
public unshared file 7, requester 0 cannot edit; the owner can. -/
theorem C6_edit_access_witness :
    canEdit 0 sharedFileRec = false ∧ canEdit 0 pubFileRec = false ∧
    canEdit 1 sharedFileRec = true :=
  ⟨(C6_edit_access 0 sharedFileRec).2.1 (by decide) (by decide),
   (C6_edit_access 0 pubFileRec).2.2 (by decide) rfl,
   (C6_edit_access 1 sharedFileRec).1.mpr (Or.inl rfl)⟩

/-- C8: deleting by id is 404 whenever the caller owns no file with that id,
even when the file exists and is merely shared with the caller, and the
catalog, ledger, and blob state are untouched. -/
theorem C8_delete_requires_ownership (s : SysState) (u fid : Nat)
    (h : ∀ f ∈ s.files, ¬ (f.id = fid ∧ f.owner = u)) :
    deleteFile u fid s = .error .notFound ∧ runOp s (.delFile u fid) = s := by
  have hnone : s.files.find? (fileOwnedPred u fid) = none := by
    apply List.find?_eq_none.mpr
    intro f hf hp
    simp only [fileOwnedPred] at hp
    rcases (Bool.and_eq_true _ _).mp hp with ⟨h1, h2⟩
    exact h f hf ⟨beq_iff_eq.mp h1, beq_iff_eq.mp h2⟩
  have hdel : deleteFile u fid s = .error .notFound := by
    unfold deleteFile
    rw [hnone]
  refine ⟨hdel, ?_⟩
  show applyExcept s (deleteFile u fid s) = s
  rw [hdel]
  rfl

/-- C8 witness: user 0 holds a read share on file 5 owned by user 1, yet a
delete call by user 0 is 404 and changes nothing. -/
theorem C8_delete_requires_ownership_witness :
    deleteFile 0 5 sharedFileState = .error .notFound ∧
    runOp sharedFileState (.delFile 0 5) = sharedFileState :=
  C8_delete_requires_ownership sharedFileState 0 5 (by decide)

/-- C3 amended: cascade deletion enumerates the files, deletes their blobs,
and applies the accumulated size as a single negative ledger delta BEFORE the
batch deletion of the File records and the deletion of the Folder record
(the delta step is skipped when the accumulated total is not positive). -/
theorem C3_cascade_order_amended (u fid : Nat) (s : SysState) (tr : List CascadeEvent)
    (htr : deleteFolderTrace u fid s = some tr)
    (hpos : (s.files.filter (fun f => f.folder == some fid)).foldl
      (fun t f => t + f.size) 0 > 0) :
    ∃ blobs : List CascadeEvent,
      (∀ e ∈ blobs, ∃ p, e = CascadeEvent.blobDelete p) ∧
      tr = CascadeEvent.enumerateFiles
          ((s.files.filter (fun f => f.folder == some fid)).map (fun f => f.id)) ::
        (blobs ++
          [CascadeEvent.ledgerDelta u
             (-((s.files.filter (fun f => f.folder == some fid)).foldl
                 (fun t f => t + f.size) 0)),
           CascadeEvent.catalogDeleteFiles fid, CascadeEvent.folderDelete fid]) := by
  unfold deleteFolderTrace at htr
  cases hfind : s.folders.find? (folderOwnedPred u fid) with
  | none => rw [hfind] at htr; cases htr
  | some g =>
      rw [hfind] at htr
      dsimp only at htr
      rw [if_pos hpos] at htr
      refine ⟨((s.files.filter (fun f => f.folder == some fid)).filter
          (fun f => f.path != "" && s.disk.contains f.path)).map
          (fun f => CascadeEvent.blobDelete f.path), ?_, ?_⟩
      · intro e he
        rcases List.mem_map.mp he with ⟨f, _, hef⟩
        exact ⟨f.path, hef.symm⟩
      · rw [← Option.some.inj htr]
        simp

/-- C3 amended witness: on the concrete one-file folder the trace is exactly
enumerate, blob unlink, ledger delta, batch file delete, folder delete. -/
theorem C3_cascade_order_amended_witness :
    ∃ blobs : List CascadeEvent,
      (∀ e ∈ blobs, ∃ p, e = CascadeEvent.blobDelete p) ∧
      ([CascadeEvent.enumerateFiles [2], CascadeEvent.blobDelete "p",
        CascadeEvent.ledgerDelta 0 (-100), CascadeEvent.catalogDeleteFiles 1,
        CascadeEvent.folderDelete 1] : List CascadeEvent) =
        CascadeEvent.enumerateFiles
          ((cascadeState.files.filter (fun f => f.folder == some 1)).map (fun f => f.id)) ::
        (blobs ++
          [CascadeEvent.ledgerDelta 0
             (-((cascadeState.files.filter (fun f => f.folder == some 1)).foldl
                 (fun t f => t + f.size) 0)),
           CascadeEvent.catalogDeleteFiles 1, CascadeEvent.folderDelete 1]) :=
  C3_cascade_order_amended 0 1 cascadeState
    [CascadeEvent.enumerateFiles [2], CascadeEvent.blobDelete "p",
     CascadeEvent.ledgerDelta 0 (-100), CascadeEvent.catalogDeleteFiles 1,
     CascadeEvent.folderDelete 1] (by decide) (by decide)

/-- C9: a folder cascade removes every file referencing the folder regardless
of which user owns it, deducts the aggregate size of all such files (other
owners included) from the caller alone while every other storage counter
stays unchanged, and the upload route records any supplied folderId with no
folder existence or ownership check. -/
theorem C9_cascade_cross_owner (s : SysState) (u fid : Nat)
    (hfound : (s.folders.find? (folderOwnedPred u fid)).isSome = true)
    (hpos : (s.files.filter (fun f => f.folder == some fid)).foldl
      (fun t f => t + f.size) 0 > 0) :
    (∃ s2, deleteFolder u fid s = .ok s2 ∧
      s2.files = s.files.filter (fun f => !(f.folder == some fid)) ∧
      (∀ f ∈ s.files, f.folder = some fid → f ∉ s2.files) ∧
      s2.storageUsed u = s.storageUsed u -
        (s.files.filter (fun f => f.folder == some fid)).foldl (fun t f => t + f.size) 0 ∧
      (∀ v, v ≠ u → s2.storageUsed v = s.storageUsed v)) ∧
    (∀ (w folderId : Nat) (sz : Int) (bp : String),
      ∃ g ∈ (uploadFile w (some folderId) sz bp s).files,
        g.folder = some folderId ∧ g.owner = w) := by
  rcases Option.isSome_iff_exists.mp hfound with ⟨gfold, hfind⟩
  constructor
  · have heq : deleteFolder u fid s = .ok
        { s with
          disk := s.disk.filter (fun p =>
            !((s.files.filter (fun f => f.folder == some fid)).any (fun f => f.path == p)))
          storageUsed := fun v => if v = u then s.storageUsed v -
              (s.files.filter (fun f => f.folder == some fid)).foldl (fun t f => t + f.size) 0
            else s.storageUsed v
          files := s.files.filter (fun f => !(f.folder == some fid))
          folders := s.folders.eraseP (folderOwnedPred u fid) } := by
      unfold deleteFolder
      rw [hfind]
      dsimp only
      rw [if_pos hpos]
    refine ⟨_, heq, rfl, ?_, ?_, ?_⟩
    · intro f hf hfolder hmem2
      rcases List.mem_filter.mp hmem2 with ⟨_, hneg⟩
      rw [hfolder] at hneg
      simp at hneg
    · simp
    · intro v hv
      simp [if_neg hv]
  · intro w folderId sz bp
    refine ⟨{ id := s.nextId, owner := w, folder := some folderId, size := sz, path := bp,
              isPublic := false, sharedWith := [] }, ?_, rfl, rfl⟩
    simp [uploadFile]

/-- C9 witness: user 0 cascades folder 1 away; the file belonging to user 1 is
removed from the catalog, 100 bytes leave the ledger of caller 0, and the
ledger of user 1 stays put; uploads accept arbitrary folder ids. -/
theorem C9_cascade_cross_owner_witness :
    (∃ s2, deleteFolder 0 1 crossState = .ok s2 ∧
      s2.files = crossState.files.filter (fun f => !(f.folder == some 1)) ∧
      (∀ f ∈ crossState.files, f.folder = some 1 → f ∉ s2.files) ∧
      s2.storageUsed 0 = crossState.storageUsed 0 -
        (crossState.files.filter (fun f => f.folder == some 1)).foldl
          (fun t f => t + f.size) 0 ∧
      (∀ v, v ≠ 0 → s2.storageUsed v = crossState.storageUsed v)) ∧
    (∀ (w folderId : Nat) (sz : Int) (bp : String),
      ∃ g ∈ (uploadFile w (some folderId) sz bp crossState).files,
        g.folder = some folderId ∧ g.owner = w) :=
  C9_cascade_cross_owner crossState 0 1 (by decide) (by decide)

/-- an upload keeps every storage counter equal to the owned live size sum. -/
theorem uploadFile_storage (w : Nat) (folderId : Option Nat) (sz : Int) (bp : String)
    (s : SysState) (hinv : ∀ u, s.storageUsed u = ownedSum u s.files) :
    ∀ u, (uploadFile w folderId sz bp s).storageUsed u =
      ownedSum u (uploadFile w folderId sz bp s).files := by
  intro u
  show (if u = w then s.storageUsed u + sz else s.storageUsed u) =
    ownedSum u (s.files ++ [⟨s.nextId, w, folderId, sz, bp, false, []⟩])
  rw [ownedSum_append, ownedSum_cons, ownedSum_nil]
  by_cases h : u = w
  · subst h
    rw [hinv u]
    simp
  · rw [hinv u]
    have hw : (w == u) = false := by simp [Ne.symm h]
    dsimp only
    simp [hw]
    exact fun h2 => absurd h2 h

/-- a file delete keeps every storage counter equal to the owned live size
sum. -/
theorem deleteFile_storage (w fid : Nat) (s : SysState)
    (hinv : ∀ u, s.storageUsed u = ownedSum u s.files) :
    ∀ u, (runOp s (.delFile w fid)).storageUsed u =
      ownedSum u (runOp s (.delFile w fid)).files := by
  intro u
  show (applyExcept s (deleteFile w fid s)).storageUsed u =
    ownedSum u (applyExcept s (deleteFile w fid s)).files
  cases hfind : s.files.find? (fileOwnedPred w fid) with
  | none =>
      unfold deleteFile
      rw [hfind]
      exact hinv u
  | some f =>
      unfold deleteFile
      rw [hfind]
      dsimp only [applyExcept]
      have hpf := List.find?_some hfind
      have hfo : f.owner = w := by
        simp only [fileOwnedPred] at hpf
        exact beq_iff_eq.mp ((Bool.and_eq_true _ _).mp hpf).2
      rw [ownedSum_eraseP (fileOwnedPred w fid) s.files f hfind u]
      by_cases h : u = w
      · subst h
        rw [hinv u, hfo]
        simp
      · rw [hinv u, hfo]
        have hw : (w == u) = false := by simp [Ne.symm h]
        simp only [if_neg h, hw]
        simp

/-- a folder create keeps every storage counter equal to the owned live size
sum. -/
theorem createFolder_storage (w : Nat) (pid : Option Nat) (name : String) (s : SysState)
    (hinv : ∀ u, s.storageUsed u = ownedSum u s.files) :
    ∀ u, (runOp s (.mkFolder w pid name)).storageUsed u =
      ownedSum u (runOp s (.mkFolder w pid name)).files := by
  intro u
  show (applyExcept s (createFolder w pid name s)).storageUsed u =
    ownedSum u (applyExcept s (createFolder w pid name s)).files
  unfold createFolder
  by_cases h : name = ""
  · rw [if_pos h]
    exact hinv u
  · rw [if_neg h]
    exact hinv u

/-- a folder cascade whose files all belong to the caller keeps every storage
counter equal to the owned live size sum. -/
theorem deleteFolder_storage (w fid : Nat) (s : SysState)
    (hop : s.files.all (fun f => !(f.folder == some fid) || f.owner == w) = true)
    (hsz : ∀ f ∈ s.files, 0 ≤ f.size)
    (hinv : ∀ u, s.storageUsed u = ownedSum u s.files) :
    ∀ u, (runOp s (.delFolder w fid)).storageUsed u =
      ownedSum u (runOp s (.delFolder w fid)).files := by
  intro u
  show (applyExcept s (deleteFolder w fid s)).storageUsed u =
    ownedSum u (applyExcept s (deleteFolder w fid s)).files
  cases hfind : s.folders.find? (folderOwnedPred w fid) with
  | none =>
      unfold deleteFolder
      rw [hfind]
      exact hinv u
  | some g =>
      unfold deleteFolder
      rw [hfind]
      dsimp only [applyExcept]
      have hownerAll : ∀ f ∈ s.files.filter (fun f => f.folder == some fid), f.owner = w := by
        intro f hf
        rcases List.mem_filter.mp hf with ⟨hfs, hfolder⟩
        have h2 := List.all_eq_true.mp hop f hfs
        rw [hfolder] at h2
        simp at h2
        exact h2
      have hsum := ownedSum_of_all_owner w
        (s.files.filter (fun f => f.folder == some fid)) hownerAll
      have hsplit := ownedSum_filter_split u (fun f => f.folder == some fid) s.files
      have htot : (s.files.filter (fun f => f.folder == some fid)).foldl
          (fun t f => t + f.size) 0 =
          ownedSum w (s.files.filter (fun f => f.folder == some fid)) := by
        rw [foldl_add_sizes, hsum.1]
        simp
      by_cases hpos : (s.files.filter (fun f => f.folder == some fid)).foldl
          (fun t f => t + f.size) 0 > 0
      · rw [if_pos hpos]
        by_cases hu : u = w
        · subst hu
          have hif : (if u = u then s.storageUsed u -
                (s.files.filter (fun f => f.folder == some fid)).foldl
                  (fun t f => t + f.size) 0
              else s.storageUsed u) = s.storageUsed u -
                (s.files.filter (fun f => f.folder == some fid)).foldl
                  (fun t f => t + f.size) 0 := if_pos rfl
          rw [hif, hinv u, hsplit, htot]
          ring
        · have hif : (if u = w then s.storageUsed u -
                (s.files.filter (fun f => f.folder == some fid)).foldl
                  (fun t f => t + f.size) 0
              else s.storageUsed u) = s.storageUsed u := if_neg hu
          rw [hif, hinv u, hsplit, hsum.2 u hu]
          simp
      · rw [if_neg hpos]
        have hnn : 0 ≤ (s.files.filter (fun f => f.folder == some fid)).foldl
            (fun t f => t + f.size) 0 := by
          rw [foldl_add_sizes]
          have hs : 0 ≤ ((s.files.filter (fun f => f.folder == some fid)).map
              (fun f => f.size)).sum := by
            apply List.sum_nonneg
            intro x hx
            rcases List.mem_map.mp hx with ⟨f, hf, rfl⟩
            exact hsz f (List.mem_filter.mp hf).1
          simpa using hs
        have hz : ownedSum w (s.files.filter (fun f => f.folder == some fid)) = 0 := by
          rw [← htot]
          omega
        by_cases hu : u = w
        · subst hu
          rw [hinv u, hsplit, hz]
          simp
        · rw [hinv u, hsplit, hsum.2 u hu]
          simp

/-- single-step preservation: any route call keeps file sizes non-negative
and, provided a folder delete only removes caller-owned files, keeps every
storageUsed equal to the owned live size sum. -/
theorem storage_invariant_step (s : SysState) (op : Op)
    (hop : opOk s op = true)
    (hsz : ∀ f ∈ s.files, 0 ≤ f.size)
    (hinv : ∀ u, s.storageUsed u = ownedSum u s.files) :
    (∀ f ∈ (runOp s op).files, 0 ≤ f.size) ∧
    (∀ u, (runOp s op).storageUsed u = ownedSum u (runOp s op).files) := by
  cases op with
  | upload w folderId sz bp =>
      constructor
      · intro f hf
        have hf2 : f ∈ s.files ++ [(⟨s.nextId, w, folderId, (sz : Int), bp, false, []⟩ : FileRec)] := hf
        rcases List.mem_append.mp hf2 with h | h
        · exact hsz f h
        · rw [List.mem_singleton.mp h]
          exact Int.natCast_nonneg sz
      · exact uploadFile_storage w folderId (sz : Int) bp s hinv
  | delFile w fid =>
      constructor
      · intro f hf
        show 0 ≤ f.size
        revert hf
        show f ∈ (applyExcept s (deleteFile w fid s)).files → 0 ≤ f.size
        cases hfind : s.files.find? (fileOwnedPred w fid) with
        | none =>
            unfold deleteFile
            rw [hfind]
            exact fun hf => hsz f hf
        | some g =>
            unfold deleteFile
            rw [hfind]
            intro hf
            exact hsz f ((List.eraseP_sublist s.files).subset hf)
      · exact deleteFile_storage w fid s hinv
  | mkFolder w pid name =>
      constructor
      · intro f hf
        revert hf
        show f ∈ (applyExcept s (createFolder w pid name s)).files → 0 ≤ f.size
        unfold createFolder
        by_cases h : name = ""
        · rw [if_pos h]
          exact fun hf => hsz f hf
        · rw [if_neg h]
          exact fun hf => hsz f hf
      · exact createFolder_storage w pid name s hinv
  | delFolder w fid =>
      constructor
      · intro f hf
        revert hf
        show f ∈ (applyExcept s (deleteFolder w fid s)).files → 0 ≤ f.size
        cases hfind : s.folders.find? (folderOwnedPred w fid) with
        | none =>
            unfold deleteFolder
            rw [hfind]
            exact fun hf => hsz f hf
        | some g =>
            unfold deleteFolder
            rw [hfind]
            intro hf
            exact hsz f (List.mem_filter.mp hf).1
      · exact deleteFolder_storage w fid s hop hsz hinv

/-- C1 amended: starting from any state whose ledgers match the live files
(sizes non-negative), after any serial sequence of uploads, file deletes,
folder creates and folder deletes in which every folder delete only removes
files owned by the calling folder owner, every storageUsed equals the sum of
sizes of the currently-live files of that user. -/
theorem C1_storage_invariant_amended (ops : List Op) (s : SysState)
    (hsz : ∀ f ∈ s.files, 0 ≤ f.size)
    (hinv : ∀ u, s.storageUsed u = ownedSum u s.files)
    (hseq : seqOk s ops = true) :
    ∀ u, (runOps s ops).storageUsed u = ownedSum u (runOps s ops).files := by
  induction ops generalizing s with
  | nil => exact hinv
  | cons op rest ih =>
      have hs : opOk s op = true ∧ seqOk (runOp s op) rest = true := by
        have h2 : (opOk s op && seqOk (runOp s op) rest) = true := hseq
        exact (Bool.and_eq_true _ _).mp h2
      have step := storage_invariant_step s op hs.1 hsz hinv
      show ∀ u, (runOps (runOp s op) rest).storageUsed u =
        ownedSum u (runOps (runOp s op) rest).files
      exact ih (runOp s op) step.1 step.2 hs.2

/-- C1 amended witness: a single user uploads twice, removes a folder holding
one file, deletes the other file; the ledger tracks the live sum throughout
and ends at zero. -/
theorem C1_storage_invariant_amended_witness :
    seqOk (initState [(0, "a")])
      [.upload 0 none 100 "p", .mkFolder 0 none "X", .upload 0 (some 1) 50 "q",
       .delFolder 0 1, .delFile 0 0] = true ∧
    (runOps (initState [(0, "a")])
      [.upload 0 none 100 "p", .mkFolder 0 none "X", .upload 0 (some 1) 50 "q",
       .delFolder 0 1, .delFile 0 0]).storageUsed 0 =
      ownedSum 0 (runOps (initState [(0, "a")])
        [.upload 0 none 100 "p", .mkFolder 0 none "X", .upload 0 (some 1) 50 "q",
         .delFolder 0 1, .delFile 0 0]).files :=
  ⟨by decide,
   C1_storage_invariant_amended
     [.upload 0 none 100 "p", .mkFolder 0 none "X", .upload 0 (some 1) 50 "q",
      .delFolder 0 1, .delFile 0 0]
     (initState [(0, "a")])
     (fun f hf => absurd hf (List.not_mem_nil f))
     (fun u => rfl)
     (by decide) 0⟩

/-- C4: for a target email resolving to a user distinct from the owner and a
file the caller owns, granting twice leaves exactly one sharedWith entry for
that user carrying the permission of the second call, given the schema
invariant that the target appears at most once beforehand. -/
theorem C4_grant_idempotent (s : SysState) (u fid tid : Nat) (email : String)
    (p1 p2 : String) (f : FileRec)
    (hemail : email ≠ "")
    (hlookup : lookupUserByEmail s email = some tid)
    (hne : tid ≠ u)
    (hfind : s.files.find? (fileOwnedPred u fid) = some f)
    (hcount : shareCount tid f.sharedWith ≤ 1) :
    ∃ s1 s2 f2,
      shareFile u fid email (some p1) s = .ok s1 ∧
      shareFile u fid email (some p2) s1 = .ok s2 ∧
      s2.files.find? (fileOwnedPred u fid) = some f2 ∧
      shareCount tid f2.sharedWith = 1 ∧
      ∀ e ∈ f2.sharedWith, e.user = tid → e.permission = p2 := by
  have hpf : fileOwnedPred u fid f = true := List.find?_some hfind
  have hne2 : ¬ ((tid == u) = true) := by simp [hne]
  have hpf1 : fileOwnedPred u fid
      { f with sharedWith := grantShared f.sharedWith tid p1 } = true := hpf
  have hpf2 : fileOwnedPred u fid
      { f with sharedWith := grantShared (grantShared f.sharedWith tid p1) tid p2 } = true :=
    hpf
  have hstep1 : shareFile u fid email (some p1) s = .ok
      { s with files := (replaceFirst (fileOwnedPred u fid)
          ({ f with sharedWith := grantShared f.sharedWith tid p1 }) s.files) } := by
    unfold shareFile
    rw [if_neg hemail, hlookup]
    dsimp only
    rw [if_neg hne2, hfind]
    rfl
  have hfind1 : (replaceFirst (fileOwnedPred u fid)
      { f with sharedWith := grantShared f.sharedWith tid p1 } s.files).find?
        (fileOwnedPred u fid) =
      some { f with sharedWith := grantShared f.sharedWith tid p1 } :=
    replaceFirst_find? (fileOwnedPred u fid)
      { f with sharedWith := grantShared f.sharedWith tid p1 } s.files f hfind hpf1
  have hstep2 : shareFile u fid email (some p2)
      { s with files := (replaceFirst (fileOwnedPred u fid)
          ({ f with sharedWith := grantShared f.sharedWith tid p1 }) s.files) } = .ok
      { s with files := (replaceFirst (fileOwnedPred u fid)
          ({ f with sharedWith := grantShared (grantShared f.sharedWith tid p1) tid p2 })
          (replaceFirst (fileOwnedPred u fid)
            ({ f with sharedWith := grantShared f.sharedWith tid p1 }) s.files)) } := by
    unfold shareFile
    rw [if_neg hemail]
    have hl1 : lookupUserByEmail
        { s with files := (replaceFirst (fileOwnedPred u fid)
            ({ f with sharedWith := grantShared f.sharedWith tid p1 }) s.files) } email =
        some tid := hlookup
    rw [hl1]
    dsimp only
    rw [if_neg hne2, hfind1]
    rfl
  have hc1 : shareCount tid (grantShared f.sharedWith tid p1) = 1 :=
    shareCount_grantShared tid p1 f.sharedWith hcount
  refine ⟨_, _,
    { f with sharedWith := grantShared (grantShared f.sharedWith tid p1) tid p2 },
    hstep1, hstep2, ?_, ?_, ?_⟩
  · exact replaceFirst_find? (fileOwnedPred u fid)
      { f with sharedWith := grantShared (grantShared f.sharedWith tid p1) tid p2 }
      (replaceFirst (fileOwnedPred u fid)
        { f with sharedWith := grantShared f.sharedWith tid p1 } s.files)
      { f with sharedWith := grantShared f.sharedWith tid p1 } hfind1 hpf2
  · exact shareCount_grantShared tid p2 (grantShared f.sharedWith tid p1) hc1.le
  · exact grantShared_perm tid p2 (grantShared f.sharedWith tid p1) hc1.le

/-- C4 witness: owner 0 shares file 5 with the user at email b as read, then
as edit; one entry for user 1 remains and it carries edit. -/
theorem C4_grant_idempotent_witness :
    ∃ s1 s2 f2,
      shareFile 0 5 "b" (some "read") shareState = .ok s1 ∧
      shareFile 0 5 "b" (some "edit") s1 = .ok s2 ∧
      s2.files.find? (fileOwnedPred 0 5) = some f2 ∧
      shareCount 1 f2.sharedWith = 1 ∧
      ∀ e ∈ f2.sharedWith, e.user = 1 → e.permission = "edit" :=
  C4_grant_idempotent shareState 0 5 1 "b" "read" "edit"
    { id := 5, owner := 0, folder := none, size := 10, path := "q",
      isPublic := false, sharedWith := [] }
    (by decide) (by decide) (by decide) (by decide) (by decide)

end DropboxBackend
